import Mathlib

/-!
Verification of the Redis-backed read-through cache `RedisRTC`
(`go/rtcache` implementation in `redisutil`, file `server.go`).

The Redis store is embedded shallowly: each keyspace the cache uses is a
field of `RedisState` (the pending sorted set, the in-progress set, the
success records `<queue>:k:<id>`, the TTL'd error records `<queue>:er:<id>`,
the work-ready list `<queue>:wr` and the pub/sub channel `<queue>:ch`).
Each Redis `MULTI`/`EXEC` transaction of the source becomes one pure
function on `RedisState`.
-/

namespace RedisRTC

/-- Work-item identifier: an opaque string (exact string equality). -/
abbrev Id := String

/-- Serialized payloads: Redis stores byte strings; we model bytes as `String`. -/
abbrev Bytes := String

/-- Association-list lookup by key, mirroring a Redis keyed read (`GET`,
`ZSCORE`): the value of the (unique) entry whose key matches. -/
def lookupKey {α : Type} : List (Id × α) → Id → Option α
  | [], _ => none
  | e :: t, id => if e.1 = id then some e.2 else lookupKey t id

/-- Keyed write (`SET`, and `ZADD` on a sorted set): overwrite the entry for
the key, or append a fresh entry when absent. -/
def setKey {α : Type} : List (Id × α) → Id → α → List (Id × α)
  | [], id, v => [(id, v)]
  | e :: t, id, v => if e.1 = id then (id, v) :: t else e :: setKey t id v

/-- Keyed removal (`DEL`; also `ZREMRANGEBYRANK 0 0` once the rank-0 member
is known, since sorted-set members are unique). -/
def removeKey {α : Type} : List (Id × α) → Id → List (Id × α)
  | [], _ => []
  | e :: t, id => if e.1 = id then removeKey t id else e :: removeKey t id

/-- `SADD`: Redis set insertion, a no-op when the member is present. -/
def sadd (l : List Id) (id : Id) : List Id :=
  if id ∈ l then l else l ++ [id]

/-- `SREM`: Redis set removal. -/
def srem : List Id → Id → List Id
  | [], _ => []
  | x :: t, id => if x = id then srem t id else x :: srem t id

/-- An error record `<queue>:er:<id>`: the stored failure message together
with the TTL (seconds) set by the `EXPIRE` that follows the `SET`. -/
structure ErrRec where
  msg : String
  ttl : Nat
deriving DecidableEq

/-- The slice of the Redis keyspace used by one `RedisRTC` queue.

* `queue`      — the pending sorted set (`member = id`, `score = priority`);
* `inProgress` — the in-progress set `<queue>:inp`;
* `results`    — the success records `<queue>:k:<id>`;
* `errors`     — the TTL'd error records `<queue>:er:<id>`;
* `workReady`  — the work-ready list `<queue>:wr` of `"W"` markers;
* `published`  — the sequence of messages `PUBLISH`ed on `<queue>:ch`. -/
structure RedisState where
  queue : List (Id × Int)
  inProgress : List Id
  results : List (Id × Bytes)
  errors : List (Id × ErrRec)
  workReady : List String
  published : List Id
deriving DecidableEq

/-- A fresh Redis instance: every keyspace empty. -/
def emptyStore : RedisState := ⟨[], [], [], [], [], []⟩

/-- `enqueue` (source: `RedisRTC.enqueue`). One checking transaction
(`ZSCORE`, `SISMEMBER`, `EXISTS` result key, `EXISTS` error key); when the
id is neither in progress nor resolved, and the queue either lacks the id
or holds it with a strictly worse (higher) score, a second transaction
runs `ZADD` and `RPUSH`es a `"W"` marker. Returns `found` (result or error
record exists) as the `alreadyResolved` flag. -/
def enqueue (id : Id) (priority : Int) (s : RedisState) : Bool × RedisState :=
  let inQueueScore := lookupKey s.queue id
  let isInProgress : Bool := decide (id ∈ s.inProgress)
  let foundResult := (lookupKey s.results id).isSome
  let foundError := (lookupKey s.errors id).isSome
  let found := foundResult || foundError
  if !isInProgress && !found then
    let saveId : Bool :=
      match inQueueScore with
      | none => true
      | some oldPriority => decide (priority < oldPriority)
    if saveId then
      (found, { s with queue := setKey s.queue id priority,
                       workReady := s.workReady ++ ["W"] })
    else
      (found, s)
  else
    (found, s)

/-- A dequeued task: the id and the priority it was queued with
(source: `workerTask`). -/
structure WorkerTask where
  id : Id
  priority : Int
deriving DecidableEq

/-- The rank-0 comparison of a Redis sorted set: ascending score, ties in
ascending lexicographic member order. -/
def entryMin (a b : Id × Int) : Id × Int :=
  if b.2 < a.2 ∨ (b.2 = a.2 ∧ b.1 < a.1) then b else a

/-- `ZRANGE <queue> 0 0 WITHSCORES`: the member with the least
(score, member) pair, or `none` on an empty sorted set. -/
def zrangeMin : List (Id × Int) → Option (Id × Int)
  | [] => none
  | e :: t => some (t.foldl entryMin e)

/-- `dequeue` (source: `RedisRTC.dequeue`). One transaction reads the
rank-0 member (`ZRANGE 0 0 WITHSCORES`), removes it (`ZREMRANGEBYRANK 0 0`)
and counts the remainder (`ZCARD`); when the queue was empty it returns
`(none, unchanged state)` — not an error. Otherwise the popped id is
`SADD`ed to the in-progress set and the task plus the remaining count is
returned. -/
def dequeue (s : RedisState) : Option (WorkerTask × Nat) × RedisState :=
  match zrangeMin s.queue with
  | none => (none, s)
  | some e =>
    let queueLeft := removeKey s.queue e.1
    (some (⟨e.1, e.2⟩, queueLeft.length),
     { s with queue := queueLeft, inProgress := sadd s.inProgress e.1 })

/-- Outcome of one call of the caller-supplied compute function
`worker(priority, id)`. Go has no sum type: the pair `(result, err)` is
modelled by `ok`/`fail`; `panicked` models a Go `panic` escaping the call —
the source installs no `recover`, so nothing after the call runs. -/
inductive WorkerOutcome (α : Type) where
  | ok (v : α)
  | fail (msg : String)
  | panicked (msg : String)
deriving DecidableEq

/-- The pluggable serializer (`util.LRUCodec`): `Encode`/`Decode` between
payload values and stored bytes, either side may error. -/
structure Codec (α : Type) where
  encode : α → Except String Bytes
  decode : Bytes → Except String α

/-- `writeWorkerResult` (source: `RedisRTC.writeWorkerResult`). Runs the
worker; on failure the error message (on encode failure the message
`"Error encoding worker result: …"`) is `SET` on the error key and given a
10-second `EXPIRE`, on success the encoded payload is `SET` on the result
key; the same transaction `SREM`s the id from the in-progress set and
`PUBLISH`es the id on the finished channel. A worker panic is not
recovered: the function (and the worker goroutine running it) never
reaches the write, modelled by `none`. -/
def writeWorkerResult {α : Type} (worker : Int → Id → WorkerOutcome α)
    (cdc : Codec α) (priority : Int) (id : Id) (s : RedisState) :
    Option RedisState :=
  match worker priority id with
  | .panicked _ => none
  | .fail e =>
    some { s with errors := setKey s.errors id ⟨e, 10⟩,
                  inProgress := srem s.inProgress id,
                  published := s.published ++ [id] }
  | .ok v =>
    match cdc.encode v with
    | .error e =>
      some { s with errors := setKey s.errors id
                      ⟨"Error encoding worker result: " ++ e, 10⟩,
                    inProgress := srem s.inProgress id,
                    published := s.published ++ [id] }
    | .ok bytes =>
      some { s with results := setKey s.results id bytes,
                    inProgress := srem s.inProgress id,
                    published := s.published ++ [id] }

/-- A value as `Get` hands it back: decoded through the codec, or the raw
stored bytes when `returnBytes` was requested. -/
inductive RedisValue (α : Type) where
  | decoded (v : α)
  | raw (b : Bytes)
deriving DecidableEq

/-- `getResultErr` (source: `RedisRTC.getResultErr`). One transaction
`GET`s the result key and the error key; an existing error record is
reported first (as `"For <id> we received error: <msg>"`), then an
existing result is returned raw or decoded, and `ok none` means neither
record exists. -/
def getResultErr {α : Type} (cdc : Codec α) (s : RedisState) (id : Id)
    (returnBytes : Bool) : Except String (Option (RedisValue α)) :=
  let retBytes := lookupKey s.results id
  let errBytes := lookupKey s.errors id
  match errBytes with
  | some er => .error ("For " ++ id ++ " we received error: " ++ er.msg)
  | none =>
    match retBytes with
    | some b =>
      if returnBytes then .ok (some (.raw b))
      else (cdc.decode b).map (fun v => some (.decoded v))
    | none => .ok none

/-- What a `Get` call does before it would have to block. -/
inductive GetOutcome (α : Type) where
  | val (v : RedisValue α)
  | err (e : String)
  | blocked
deriving DecidableEq

/-- `Get` (source: `RedisRTC.Get`): look the id up via `getResultErr` and
return immediately on a value or an error; `blocked` models the remaining
path, `waitFor` (enqueue, subscribe and block), which cannot return
without further system steps. -/
def Get {α : Type} (cdc : Codec α) (s : RedisState) (priority : Int)
    (returnBytes : Bool) (id : Id) : GetOutcome α :=
  match getResultErr cdc s id returnBytes with
  | .error e => .err e
  | .ok (some v) => .val v
  | .ok none => .blocked

/-- The tail of `waitFor` (source: `RedisRTC.waitFor`, after the blocking
receive): re-read the store; a missing record after wake-up is the
`"Unable to retrieve result for id: <id>"` error. -/
def waitForRead {α : Type} (cdc : Codec α) (s : RedisState) (id : Id)
    (returnBytes : Bool) : Except String (RedisValue α) :=
  match getResultErr cdc s id returnBytes with
  | .error e => .error e
  | .ok (some v) => .ok v
  | .ok none => .error ("Unable to retrieve result for id: " ++ id)

/-- `isFinished` (source: `RedisRTC.isFinished`): `EXISTS` on the result
key plus `EXISTS` on the error key. -/
def isFinished (s : RedisState) (id : Id) : Bool :=
  (lookupKey s.results id).isSome || (lookupKey s.errors id).isSome

/-- The notifier's in-process watch map (source: `watchIds` in
`startWorkScheduler`): id → number of registered one-shot wake channels
(the length of the channel slice). -/
abbrev WatchMap := List (Id × Nat)

/-- Number of wake channels currently registered for an id. -/
def countWaiters (watch : WatchMap) (id : Id) : Nat :=
  (lookupKey watch id).getD 0

/-- `notifyChannels` (source: closure of the same name): wake every
channel registered for the id (the count reports how many), then delete
the id from the map. -/
def notifyChannels (watch : WatchMap) (id : Id) : WatchMap × Nat :=
  (removeKey watch id, countWaiters watch id)

/-- `watchIds[subscription.id] = append(watchIds[subscription.id], ch)`:
one more wake channel for the id. -/
def addWaiter (watch : WatchMap) (id : Id) : WatchMap :=
  match lookupKey watch id with
  | some n => setKey watch id (n + 1)
  | none => watch ++ [(id, 1)]

/-- `notifyAll` (source: closure of the same name): iterate over the
watched ids and, for each one the store already shows finished, run
`notifyChannels`. The fold's first component is the evolving map (Go
deletes from `watchIds` while ranging over it; each iteration deletes
only the id it visits), the second collects `(id, waiters woken)`. -/
def notifyAll (s : RedisState) (watch : WatchMap) : WatchMap × List (Id × Nat) :=
  watch.foldl
    (fun acc e =>
      if isFinished s e.1 then
        ((notifyChannels acc.1 e.1).1, acc.2 ++ [(e.1, (notifyChannels acc.1 e.1).2)])
      else acc)
    (watch, [])

/-- An event consumed by the scheduler goroutine's `select`: a new
subscription from `doneCh`, or a message from the finished pub/sub
channel (the empty string being the reconnect sentinel). -/
inductive SchedEvent where
  | sub (id : Id)
  | finished (msg : String)

/-- One iteration of the notifier loop (source: the `select` body of
`startWorkScheduler`), returning the new watch map and the list of
`(id, waiters woken)` notifications it performed. -/
def schedulerStep (s : RedisState) (watch : WatchMap) :
    SchedEvent → WatchMap × List (Id × Nat)
  | .sub id =>
    let watch1 := addWaiter watch id
    if isFinished s id then
      ((notifyChannels watch1 id).1, [(id, (notifyChannels watch1 id).2)])
    else (watch1, [])
  | .finished msg =>
    if msg = "" then notifyAll s watch
    else ((notifyChannels watch msg).1, [(msg, (notifyChannels watch msg).2)])

/-- `Warm` (source: `RedisRTC.Warm`): a `Get` with `returnBytes = true`
whose value is discarded. -/
def Warm {α : Type} (cdc : Codec α) (s : RedisState) (priority : Int)
    (id : Id) : GetOutcome α :=
  Get cdc s priority true id

/-- Repeatedly `dequeue`, collecting the popped ids, the way the
dequeue loop in `getWorkChannel` drains the queue; stops on an empty
queue. -/
def drainQueue : Nat → RedisState → List Id
  | 0, _ => []
  | n + 1, s =>
    match dequeue s with
    | (some (t, _), s1) => t.id :: drainQueue n s1
    | (none, _) => []

/-- The first half of `dequeue` in isolation: only the
`MULTI`/`ZRANGE 0 0 WITHSCORES`/`ZREMRANGEBYRANK 0 0`/`ZCARD`/`EXEC`
transaction, without the `SADD` that the source issues afterwards
outside the transaction. -/
def dequeuePop (s : RedisState) : Option (WorkerTask × Nat) × RedisState :=
  match zrangeMin s.queue with
  | none => (none, s)
  | some e =>
    let queueLeft := removeKey s.queue e.1
    (some (⟨e.1, e.2⟩, queueLeft.length), { s with queue := queueLeft })

/-- The second half of `dequeue` in isolation: the `SADD` of the popped
id to the in-progress set, which the source runs on the same connection
but outside the `MULTI`/`EXEC`. -/
def dequeueMark (s : RedisState) (id : Id) : RedisState :=
  { s with inProgress := sadd s.inProgress id }

/-- The condition under which `enqueue`'s checking transaction decides to
run its second (`ZADD`/`RPUSH`) transaction: not in progress, no result or
error record, and either not queued or queued with a strictly worse
score. Evaluated against the store at check time. -/
def enqueueWillSave (id : Id) (priority : Int) (s : RedisState) : Bool :=
  let inQueueScore := lookupKey s.queue id
  let isInProgress : Bool := decide (id ∈ s.inProgress)
  let found := (lookupKey s.results id).isSome || (lookupKey s.errors id).isSome
  (!isInProgress && !found) &&
    (match inQueueScore with
     | none => true
     | some oldPriority => decide (priority < oldPriority))

/-- `enqueue`'s second transaction in isolation: `MULTI`/`ZADD`/`RPUSH
"W"`/`EXEC`. -/
def enqueueAddTx (id : Id) (priority : Int) (s : RedisState) : RedisState :=
  { s with queue := setKey s.queue id priority,
           workReady := s.workReady ++ ["W"] }

/-- System configuration at the source's transaction granularity: the
store, the callers whose `enqueue` check transaction has passed but whose
`ZADD`/`RPUSH` transaction is still pending, the dequeue-loop instances
that have popped a task but not yet issued the out-of-transaction `SADD`,
and the tasks handed to workers (marked in progress, write-back
pending). -/
structure ConfigTx where
  store : RedisState
  enqueuers : List (Id × Int)
  dequeuers : List WorkerTask
  inFlight : List WorkerTask
deriving DecidableEq

/-- Interleaving semantics of the cache at the granularity of the source's
Redis command batches: each `MULTI`/`EXEC` transaction is one atomic step
and a command issued outside a transaction is its own step. `enqueue`
contributes two steps — its read-only checking transaction
(`enqueueCheck`, recording a pending add exactly when the check passes)
and its `ZADD`/`RPUSH` transaction (`enqueueAdd`); the dequeue loop
contributes the pop transaction (`dequeuePopEmpty`/`dequeuePopTx`) and
the out-of-transaction `SADD` (`dequeueMarkTx`); `complete` is a worker
goroutine's write-back transaction (a panicking worker never reaches it);
`expireError` is Redis expiring a TTL'd error record. Reads
(`getResultErr`, `isFinished`) do not change the store and need no
step. -/
inductive StepTx {α : Type} (worker : Int → Id → WorkerOutcome α) (cdc : Codec α) :
    ConfigTx → ConfigTx → Prop where
  | enqueueCheck (c : ConfigTx) (id : Id) (p : Int) :
      StepTx worker cdc c
        ⟨c.store,
         if enqueueWillSave id p c.store then c.enqueuers ++ [(id, p)]
         else c.enqueuers,
         c.dequeuers, c.inFlight⟩
  | enqueueAdd (c : ConfigTx) (e : Id × Int) (h : e ∈ c.enqueuers) :
      StepTx worker cdc c
        ⟨enqueueAddTx e.1 e.2 c.store, c.enqueuers.erase e, c.dequeuers,
         c.inFlight⟩
  | dequeuePopEmpty (c : ConfigTx) (h : (dequeuePop c.store).1 = none) :
      StepTx worker cdc c
        ⟨(dequeuePop c.store).2, c.enqueuers, c.dequeuers, c.inFlight⟩
  | dequeuePopTx (c : ConfigTx) (t : WorkerTask) (n : Nat)
      (h : (dequeuePop c.store).1 = some (t, n)) :
      StepTx worker cdc c
        ⟨(dequeuePop c.store).2, c.enqueuers, c.dequeuers ++ [t], c.inFlight⟩
  | dequeueMarkTx (c : ConfigTx) (t : WorkerTask) (h : t ∈ c.dequeuers) :
      StepTx worker cdc c
        ⟨dequeueMark c.store t.id, c.enqueuers, c.dequeuers.erase t,
         c.inFlight ++ [t]⟩
  | complete (c : ConfigTx) (t : WorkerTask) (s1 : RedisState)
      (hmem : t ∈ c.inFlight)
      (hw : writeWorkerResult worker cdc t.priority t.id c.store = some s1) :
      StepTx worker cdc c ⟨s1, c.enqueuers, c.dequeuers, c.inFlight.erase t⟩
  | expireError (c : ConfigTx) (id : Id) :
      StepTx worker cdc c
        ⟨{ c.store with errors := removeKey c.store.errors id }, c.enqueuers,
         c.dequeuers, c.inFlight⟩

/-- The system's start configuration: a fresh store, nothing pending. -/
def initConfigTx : ConfigTx := ⟨emptyStore, [], [], []⟩

/-- Configurations the running system can be in. -/
def ReachableTx {α : Type} (worker : Int → Id → WorkerOutcome α)
    (cdc : Codec α) (c : ConfigTx) : Prop :=
  Relation.ReflTransGen (StepTx worker cdc) initConfigTx c

/-! Basic facts about the keyed-store primitives. -/

theorem lookup_setKey_self {α : Type} (l : List (Id × α)) (id : Id) (v : α) :
    lookupKey (setKey l id v) id = some v := by
  induction l with
  | nil => simp [setKey, lookupKey]
  | cons e t ih =>
    by_cases h : e.1 = id
    · simp [setKey, h, lookupKey]
    · simp [setKey, h, lookupKey, ih]

theorem lookup_setKey_ne {α : Type} (l : List (Id × α)) (id x : Id) (v : α)
    (h : x ≠ id) : lookupKey (setKey l id v) x = lookupKey l x := by
  induction l with
  | nil => simp [setKey, lookupKey, Ne.symm h]
  | cons e t ih =>
    by_cases he : e.1 = id
    · subst he
      simp [setKey, lookupKey, Ne.symm h]
    · simp [setKey, he, lookupKey, ih]

theorem lookup_removeKey_self {α : Type} (l : List (Id × α)) (id : Id) :
    lookupKey (removeKey l id) id = none := by
  induction l with
  | nil => simp [removeKey, lookupKey]
  | cons e t ih =>
    by_cases h : e.1 = id
    · simp [removeKey, h, ih]
    · simp [removeKey, h, lookupKey, ih]

theorem lookup_removeKey_ne {α : Type} (l : List (Id × α)) (id x : Id)
    (h : x ≠ id) : lookupKey (removeKey l id) x = lookupKey l x := by
  induction l with
  | nil => simp [removeKey]
  | cons e t ih =>
    by_cases he : e.1 = id
    · subst he
      simp [removeKey, lookupKey, Ne.symm h, ih]
    · simp [removeKey, he, lookupKey, ih]

theorem lookup_isSome_iff {α : Type} (l : List (Id × α)) (id : Id) :
    (lookupKey l id).isSome = true ↔ id ∈ l.map Prod.fst := by
  induction l with
  | nil => simp [lookupKey]
  | cons e t ih =>
    by_cases h : e.1 = id
    · simp [lookupKey, h]
    · simp [lookupKey, h, ih, Ne.symm h]

theorem lookup_eq_of_mem_nodup {α : Type} (l : List (Id × α)) (e : Id × α)
    (hnd : (l.map Prod.fst).Nodup) (hmem : e ∈ l) :
    lookupKey l e.1 = some e.2 := by
  induction l with
  | nil => cases hmem
  | cons x t ih =>
    simp only [List.map_cons, List.nodup_cons] at hnd
    rcases List.mem_cons.mp hmem with h | h
    · subst h
      simp [lookupKey]
    · have hne : x.1 ≠ e.1 := by
        intro hx
        apply hnd.1
        rw [hx]
        exact List.mem_map_of_mem Prod.fst h
      simp [lookupKey, hne, ih hnd.2 h]

theorem removeKey_of_notMem {α : Type} (l : List (Id × α)) (id : Id)
    (h : id ∉ l.map Prod.fst) : removeKey l id = l := by
  induction l with
  | nil => rfl
  | cons e t ih =>
    simp only [List.map_cons, List.mem_cons, not_or] at h
    simp [removeKey, Ne.symm h.1, ih h.2]

theorem removeKey_length_of_mem {α : Type} (l : List (Id × α)) (e : Id × α)
    (hnd : (l.map Prod.fst).Nodup) (hmem : e ∈ l) :
    (removeKey l e.1).length = l.length - 1 := by
  induction l with
  | nil => cases hmem
  | cons x t ih =>
    simp only [List.map_cons, List.nodup_cons] at hnd
    rcases List.mem_cons.mp hmem with h | h
    · subst h
      simp [removeKey, removeKey_of_notMem t e.1 hnd.1]
    · have hne : x.1 ≠ e.1 := by
        intro hx
        apply hnd.1
        rw [hx]
        exact List.mem_map_of_mem Prod.fst h
      have hlen : 1 ≤ t.length := by
        cases t with
        | nil => cases h
        | cons _ _ => simp
      simp only [removeKey, if_neg hne, List.length_cons, ih hnd.2 h]
      omega

theorem removeKey_sublist {α : Type} (l : List (Id × α)) (id : Id) :
    List.Sublist (removeKey l id) l := by
  induction l with
  | nil => exact List.Sublist.refl _
  | cons e t ih =>
    by_cases h : e.1 = id
    · simpa [removeKey, h] using ih.cons e
    · simpa [removeKey, h] using ih.cons₂ e

theorem mem_sadd (l : List Id) (id x : Id) :
    x ∈ sadd l id ↔ x ∈ l ∨ x = id := by
  unfold sadd
  by_cases h : id ∈ l
  · simp only [if_pos h]
    constructor
    · exact Or.inl
    · rintro (hx | rfl) <;> [exact hx; exact h]
  · simp [if_neg h]

theorem mem_srem (l : List Id) (id x : Id) :
    x ∈ srem l id ↔ x ∈ l ∧ x ≠ id := by
  induction l with
  | nil => simp [srem]
  | cons y t ih =>
    by_cases h : y = id
    · rw [srem, if_pos h, ih, List.mem_cons]
      constructor
      · rintro ⟨hx, hne⟩
        exact ⟨Or.inr hx, hne⟩
      · rintro ⟨hx | hx, hne⟩
        · exact absurd (hx.trans h) hne
        · exact ⟨hx, hne⟩
    · rw [srem, if_neg h, List.mem_cons, ih, List.mem_cons]
      constructor
      · rintro (rfl | ⟨hx, hne⟩)
        · exact ⟨Or.inl rfl, h⟩
        · exact ⟨Or.inr hx, hne⟩
      · rintro ⟨rfl | hx, hne⟩
        · exact Or.inl rfl
        · exact Or.inr ⟨hx, hne⟩

/-! Characterization of `enqueue`. -/

theorem enqueue_fst (id : Id) (p : Int) (s : RedisState) :
    (enqueue id p s).1 =
      ((lookupKey s.results id).isSome || (lookupKey s.errors id).isSome) := by
  by_cases hip : id ∈ s.inProgress
  · simp [enqueue, hip]
  · by_cases hres : (lookupKey s.results id).isSome = true
    · simp [enqueue, hip, hres]
    · by_cases herr : (lookupKey s.errors id).isSome = true
      · simp [enqueue, hip, herr, Option.not_isSome_iff_eq_none.mp hres]
      · cases hq : lookupKey s.queue id with
        | none =>
          simp [enqueue, hip, hq, Option.not_isSome_iff_eq_none.mp hres,
                Option.not_isSome_iff_eq_none.mp herr]
        | some old =>
          by_cases hlt : p < old <;>
            simp [enqueue, hip, hq, hlt, Option.not_isSome_iff_eq_none.mp hres,
                  Option.not_isSome_iff_eq_none.mp herr]

theorem enqueue_no_mutation_of (id : Id) (p : Int) (s : RedisState)
    (h : id ∈ s.inProgress ∨ (lookupKey s.results id).isSome = true ∨
         (lookupKey s.errors id).isSome = true) :
    (enqueue id p s).2 = s := by
  unfold enqueue
  rcases h with h | h | h <;> simp [h]

theorem enqueue_no_mutation_of_worse (id : Id) (p : Int) (s : RedisState)
    (old : Int) (hq : lookupKey s.queue id = some old) (hge : ¬ p < old) :
    (enqueue id p s).2 = s := by
  by_cases hip : id ∈ s.inProgress
  · exact enqueue_no_mutation_of id p s (Or.inl hip)
  · by_cases hres : (lookupKey s.results id).isSome = true
    · exact enqueue_no_mutation_of id p s (Or.inr (Or.inl hres))
    · by_cases herr : (lookupKey s.errors id).isSome = true
      · exact enqueue_no_mutation_of id p s (Or.inr (Or.inr herr))
      · simp [enqueue, hip, hq, hge, Option.not_isSome_iff_eq_none.mp hres,
              Option.not_isSome_iff_eq_none.mp herr]

theorem enqueue_mutates (id : Id) (p : Int) (s : RedisState)
    (hip : id ∉ s.inProgress)
    (hres : lookupKey s.results id = none)
    (herr : lookupKey s.errors id = none)
    (hsave : lookupKey s.queue id = none ∨
             ∃ old, lookupKey s.queue id = some old ∧ p < old) :
    (enqueue id p s).2 =
      { s with queue := setKey s.queue id p,
               workReady := s.workReady ++ ["W"] } := by
  rcases hsave with hq | ⟨old, hq, hlt⟩
  · simp [enqueue, hip, hres, herr, hq]
  · simp [enqueue, hip, hres, herr, hq, hlt]

theorem enqueue_mutation_changes (id : Id) (p : Int) (s : RedisState) :
    ({ s with queue := setKey s.queue id p,
              workReady := s.workReady ++ ["W"] } : RedisState) ≠ s := by
  intro he
  have hwr : s.workReady ++ ["W"] = s.workReady := congrArg RedisState.workReady he
  have := congrArg List.length hwr
  simp at this

/-- C2 (amended): `enqueue` returns `alreadyResolved = true` exactly when a
result or error record exists for the id — membership in the in-progress
set alone yields `alreadyResolved = false` — and it leaves the store
unchanged exactly when the id is in progress, resolved, or already queued
with an equal or better (≤) priority. -/
theorem enqueue_alreadyResolved_iff (id : Id) (p : Int) (s : RedisState) :
    ((enqueue id p s).1 = true ↔
      ((lookupKey s.results id).isSome = true ∨
       (lookupKey s.errors id).isSome = true)) ∧
    ((enqueue id p s).2 = s ↔
      (id ∈ s.inProgress ∨ (lookupKey s.results id).isSome = true ∨
       (lookupKey s.errors id).isSome = true ∨
       ∃ old, lookupKey s.queue id = some old ∧ old ≤ p)) := by
  constructor
  · rw [enqueue_fst]
    exact iff_of_eq (Bool.or_eq_true _ _)
  · constructor
    · intro hEq
      by_cases hip : id ∈ s.inProgress
      · exact Or.inl hip
      by_cases hres : (lookupKey s.results id).isSome = true
      · exact Or.inr (Or.inl hres)
      by_cases herr : (lookupKey s.errors id).isSome = true
      · exact Or.inr (Or.inr (Or.inl herr))
      cases hq : lookupKey s.queue id with
      | none =>
        exfalso
        have hm := enqueue_mutates id p s hip
          (Option.not_isSome_iff_eq_none.mp hres)
          (Option.not_isSome_iff_eq_none.mp herr) (Or.inl hq)
        exact enqueue_mutation_changes id p s (hm ▸ hEq)
      | some old =>
        by_cases hlt : p < old
        · exfalso
          have hm := enqueue_mutates id p s hip
            (Option.not_isSome_iff_eq_none.mp hres)
            (Option.not_isSome_iff_eq_none.mp herr) (Or.inr ⟨old, hq, hlt⟩)
          exact enqueue_mutation_changes id p s (hm ▸ hEq)
        · exact Or.inr (Or.inr (Or.inr ⟨old, rfl, not_lt.mp hlt⟩))
    · intro h
      rcases h with hip | hres | herr | ⟨old, hq, hle⟩
      · exact enqueue_no_mutation_of id p s (Or.inl hip)
      · exact enqueue_no_mutation_of id p s (Or.inr (Or.inl hres))
      · exact enqueue_no_mutation_of id p s (Or.inr (Or.inr herr))
      · exact enqueue_no_mutation_of_worse id p s old hq (not_lt.mpr hle)

/-- C2 counterexample: with `"x"` in the in-progress set and no result or
error record, `enqueue` performs no mutation but returns
`alreadyResolved = false`, not `true` as the claim states. -/
theorem enqueue_inProgress_not_alreadyResolved_cex :
    ("x" ∈ (⟨[], ["x"], [], [], [], []⟩ : RedisState).inProgress) ∧
    (enqueue "x" 1 ⟨[], ["x"], [], [], [], []⟩).1 = false ∧
    (enqueue "x" 1 ⟨[], ["x"], [], [], [], []⟩).2 = ⟨[], ["x"], [], [], [], []⟩ := by
  decide

/-- C4: re-enqueueing an id that is queued (and neither in progress nor
resolved) with stored priority `p` under a new priority `pNew` leaves the
stored score at `min p pNew`: a better (lower) priority replaces the
entry, a worse or equal one changes nothing. -/
theorem enqueue_priority_min (s : RedisState) (id : Id) (p pNew : Int)
    (hq : lookupKey s.queue id = some p)
    (hip : id ∉ s.inProgress)
    (hres : lookupKey s.results id = none)
    (herr : lookupKey s.errors id = none) :
    lookupKey ((enqueue id pNew s).2).queue id = some (min p pNew) := by
  by_cases hlt : pNew < p
  · rw [enqueue_mutates id pNew s hip hres herr (Or.inr ⟨p, hq, hlt⟩)]
    simp [lookup_setKey_self, min_eq_right (le_of_lt hlt)]
  · rw [enqueue_no_mutation_of_worse id pNew s p hq hlt, hq,
        min_eq_left (not_lt.mp hlt)]

/-- Witness for C4 at a concrete store: id `"x"` queued at priority 5,
re-enqueued at 3. -/
theorem enqueue_priority_min_witness :
    lookupKey ((enqueue "x" 3 ⟨[("x", 5)], [], [], [], [], []⟩).2).queue "x" =
      some (min 5 3) :=
  enqueue_priority_min ⟨[("x", 5)], [], [], [], [], []⟩ "x" 5 3
    (by decide) (by decide) (by decide) (by decide)

/-! The sorted-set rank order and `dequeue`. -/

/-- The (score, member) order of a Redis sorted set: `a` ranks no later
than `b`. -/
def entryLE (a b : Id × Int) : Prop :=
  a.2 < b.2 ∨ (a.2 = b.2 ∧ a.1 ≤ b.1)

theorem entryLE_refl (a : Id × Int) : entryLE a a :=
  Or.inr ⟨rfl, le_refl _⟩

theorem entryLE_trans (a b c : Id × Int) (h1 : entryLE a b) (h2 : entryLE b c) :
    entryLE a c := by
  rcases h1 with h1 | ⟨h1, h1s⟩
  · rcases h2 with h2 | ⟨h2, _⟩
    · exact Or.inl (h1.trans h2)
    · exact Or.inl (h2 ▸ h1)
  · rcases h2 with h2 | ⟨h2, h2s⟩
    · exact Or.inl (h1 ▸ h2)
    · exact Or.inr ⟨h1.trans h2, h1s.trans h2s⟩

theorem entryMin_eq_or (a b : Id × Int) : entryMin a b = a ∨ entryMin a b = b := by
  unfold entryMin
  split
  · exact Or.inr rfl
  · exact Or.inl rfl

theorem entryLE_entryMin_left (a b : Id × Int) : entryLE (entryMin a b) a := by
  unfold entryMin
  split
  · rename_i h
    rcases h with h | ⟨h1, h2⟩
    · exact Or.inl h
    · exact Or.inr ⟨h1, le_of_lt h2⟩
  · exact entryLE_refl a

theorem entryLE_entryMin_right (a b : Id × Int) : entryLE (entryMin a b) b := by
  unfold entryMin
  split
  · exact entryLE_refl b
  · rename_i h
    have h1 := not_or.mp h
    have hle : a.2 ≤ b.2 := not_lt.mp h1.1
    rcases lt_or_eq_of_le hle with hlt | heq
    · exact Or.inl hlt
    · refine Or.inr ⟨heq, ?_⟩
      have : ¬ b.1 < a.1 := fun hb => h1.2 ⟨heq.symm, hb⟩
      exact not_lt.mp this

theorem foldl_entryMin_mem (t : List (Id × Int)) (a : Id × Int) :
    t.foldl entryMin a = a ∨ t.foldl entryMin a ∈ t := by
  induction t generalizing a with
  | nil => exact Or.inl rfl
  | cons h t ih =>
    rw [List.foldl_cons]
    rcases ih (entryMin a h) with hm | hm
    · rcases entryMin_eq_or a h with he | he
      · exact Or.inl (hm.trans he)
      · exact Or.inr (List.mem_cons.mpr (Or.inl (hm.trans he)))
    · exact Or.inr (List.mem_cons.mpr (Or.inr hm))

theorem foldl_entryMin_le (t : List (Id × Int)) (a : Id × Int) :
    entryLE (t.foldl entryMin a) a ∧ ∀ e ∈ t, entryLE (t.foldl entryMin a) e := by
  induction t generalizing a with
  | nil => exact ⟨entryLE_refl a, by intro e he; cases he⟩
  | cons h t ih =>
    rw [List.foldl_cons]
    obtain ⟨ih1, ih2⟩ := ih (entryMin a h)
    refine ⟨entryLE_trans _ _ _ ih1 (entryLE_entryMin_left a h), ?_⟩
    intro e he
    rcases List.mem_cons.mp he with rfl | he
    · exact entryLE_trans _ _ _ ih1 (entryLE_entryMin_right a e)
    · exact ih2 e he

theorem zrangeMin_spec (l : List (Id × Int)) (e : Id × Int)
    (h : zrangeMin l = some e) : e ∈ l ∧ ∀ x ∈ l, entryLE e x := by
  cases l with
  | nil => cases h
  | cons a t =>
    have he : t.foldl entryMin a = e := by
      simpa [zrangeMin] using h
    obtain ⟨h1, h2⟩ := foldl_entryMin_le t a
    constructor
    · rcases foldl_entryMin_mem t a with hm | hm
      · exact List.mem_cons.mpr (Or.inl (he ▸ hm))
      · exact List.mem_cons.mpr (Or.inr (he ▸ hm))
    · intro x hx
      rcases List.mem_cons.mp hx with rfl | hx
      · exact he ▸ h1
      · exact he ▸ h2 x hx

theorem dequeue_of_empty (s : RedisState) (h : s.queue = []) :
    dequeue s = (none, s) := by
  simp [dequeue, h, zrangeMin]

theorem dequeue_of_min (s : RedisState) (e : Id × Int)
    (h : zrangeMin s.queue = some e) :
    dequeue s = (some (⟨e.1, e.2⟩, (removeKey s.queue e.1).length),
      { s with queue := removeKey s.queue e.1,
               inProgress := sadd s.inProgress e.1 }) := by
  simp [dequeue, h]

/-- C3: `dequeue` on an empty queue returns no task and an unchanged store
(not an error); otherwise it pops exactly the entry ranked first by
(ascending priority, then member order), moves its id into the in-progress
set, and reports how many entries remain; in particular ids
`"a"`, `"b"`, `"c"` enqueued with priorities 3, 1, 2 drain in the order
`"b"`, `"c"`, `"a"`. -/
theorem dequeue_priority_order (s : RedisState)
    (hnd : (s.queue.map Prod.fst).Nodup) :
    (s.queue = [] → dequeue s = (none, s)) ∧
    (∀ e, zrangeMin s.queue = some e →
      e ∈ s.queue ∧ (∀ x ∈ s.queue, entryLE e x) ∧
      dequeue s = (some (⟨e.1, e.2⟩, s.queue.length - 1),
        { s with queue := removeKey s.queue e.1,
                 inProgress := sadd s.inProgress e.1 })) ∧
    drainQueue 3 ((enqueue "c" 2 ((enqueue "b" 1
      ((enqueue "a" 3 emptyStore).2)).2)).2) = ["b", "c", "a"] := by
  refine ⟨dequeue_of_empty s, ?_, by decide⟩
  intro e he
  obtain ⟨hmem, hmin⟩ := zrangeMin_spec s.queue e he
  refine ⟨hmem, hmin, ?_⟩
  rw [dequeue_of_min s e he, removeKey_length_of_mem s.queue e hnd hmem]

/-- Witness for C3: the scenario store (ids `"a"`, `"b"`, `"c"` with
priorities 3, 1, 2) drains in priority order. -/
theorem dequeue_priority_order_witness :
    drainQueue 3 ((enqueue "c" 2 ((enqueue "b" 1
      ((enqueue "a" 3 emptyStore).2)).2)).2) = ["b", "c", "a"] :=
  (dequeue_priority_order ((enqueue "c" 2 ((enqueue "b" 1
      ((enqueue "a" 3 emptyStore).2)).2)).2) (by decide)).2.2

/-! Worker write-back, the read path and the round trip. -/

/-- The identity codec on already-serialized strings; used to instantiate
the generic theorems at concrete inputs. -/
def idCodec : Codec String :=
  ⟨fun v => Except.ok v, fun b => Except.ok b⟩

/-- C5 (amended): when the computation returns an error, the worker stores
that error's message as the error record for the id with a TTL of 10
seconds, removes the id from the in-progress set, publishes the
completion, and the write-back completes (`some …`), so the worker loop
continues with the next task. (A panicking computation is not recovered —
see the counterexample — so the amendment drops the panic case.) -/
theorem writeWorkerResult_fail_stores_error {α : Type}
    (worker : Int → Id → WorkerOutcome α) (cdc : Codec α)
    (priority : Int) (id : Id) (s : RedisState) (e : String)
    (hw : worker priority id = .fail e) :
    writeWorkerResult worker cdc priority id s =
      some { s with errors := setKey s.errors id ⟨e, 10⟩,
                    inProgress := srem s.inProgress id,
                    published := s.published ++ [id] } ∧
    lookupKey (setKey s.errors id ⟨e, 10⟩) id = some (⟨e, 10⟩ : ErrRec) ∧
    id ∉ srem s.inProgress id := by
  refine ⟨by simp [writeWorkerResult, hw], lookup_setKey_self _ _ _, ?_⟩
  intro hmem
  exact ((mem_srem s.inProgress id id).mp hmem).2 rfl

/-- Witness for C5 at a concrete failing worker. -/
theorem writeWorkerResult_fail_witness :
    writeWorkerResult (fun _ _ => WorkerOutcome.fail "boom") idCodec 1 "x"
        ⟨[], ["x"], [], [], [], []⟩ =
      some { (⟨[], ["x"], [], [], [], []⟩ : RedisState) with
             errors := setKey [] "x" ⟨"boom", 10⟩,
             inProgress := srem ["x"] "x",
             published := [] ++ ["x"] } ∧
    lookupKey (setKey [] "x" ⟨"boom", 10⟩) "x" = some (⟨"boom", 10⟩ : ErrRec) ∧
    "x" ∉ srem ["x"] "x" :=
  writeWorkerResult_fail_stores_error (fun _ _ => WorkerOutcome.fail "boom")
    idCodec 1 "x" ⟨[], ["x"], [], [], [], []⟩ "boom" rfl

/-- C5 counterexample: a panicking computation is not recovered — the
source installs no `recover` in the worker goroutine, so nothing is
stored, the id stays in the in-progress set and the loop iteration never
completes (`none`), contradicting the claim that a panic is stored as an
error record and the loop continues. -/
theorem writeWorkerResult_panic_crashes_cex :
    writeWorkerResult (fun _ _ => WorkerOutcome.panicked "boom") idCodec 1 "x"
      ⟨[], ["x"], [], [], [], []⟩ = none := rfl

/-- C10: when both an error record and a success record are present for an
id, `getResultErr` (and hence `Get`) returns the stored error — whose
message carries the stored failure text — and never the success value:
the error half is consulted first. -/
theorem getResultErr_error_precedence {α : Type} (cdc : Codec α)
    (s : RedisState) (id : Id) (rb : Bool) (pr : Int) (b : Bytes) (er : ErrRec)
    (hres : lookupKey s.results id = some b)
    (herr : lookupKey s.errors id = some er) :
    getResultErr cdc s id rb =
      .error ("For " ++ id ++ " we received error: " ++ er.msg) ∧
    Get cdc s pr rb id =
      .err ("For " ++ id ++ " we received error: " ++ er.msg) := by
  constructor
  · simp [getResultErr, herr]
  · simp [Get, getResultErr, herr]

/-- Witness for C10: id `"x"` with both a payload and an error record. -/
theorem getResultErr_error_precedence_witness :
    getResultErr idCodec
        ⟨[], [], [("x", "payload")], [("x", ⟨"bad", 10⟩)], [], []⟩ "x" false =
      .error "For x we received error: bad" ∧
    Get idCodec ⟨[], [], [("x", "payload")], [("x", ⟨"bad", 10⟩)], [], []⟩
        1 false "x" =
      .err "For x we received error: bad" :=
  getResultErr_error_precedence idCodec
    ⟨[], [], [("x", "payload")], [("x", ⟨"bad", 10⟩)], [], []⟩
    "x" false 1 "payload" ⟨"bad", 10⟩ rfl rfl

/-- C6: with a worker returning payload `P` (and a codec that round-trips
`P`), the cold call's full cycle — enqueue, dequeue, worker write-back,
post-wake read — yields the decoded `P`, and every subsequent call is a
cache hit that returns immediately (decoded, or the raw bytes when
requested) without blocking. -/
theorem get_round_trip {α : Type} (cdc : Codec α)
    (worker : Int → Id → WorkerOutcome α) (pr : Int) (id : Id) (P : α)
    (bs : Bytes) (s0 : RedisState)
    (hw : worker pr id = .ok P)
    (henc : cdc.encode P = .ok bs)
    (hdec : cdc.decode bs = .ok P)
    (hq : s0.queue = [])
    (hres : lookupKey s0.results id = none)
    (herr : lookupKey s0.errors id = none)
    (hip : id ∉ s0.inProgress) :
    ∃ s1 s2 s3 : RedisState,
      enqueue id pr s0 = (false, s1) ∧
      dequeue s1 = (some (⟨id, pr⟩, 0), s2) ∧
      writeWorkerResult worker cdc pr id s2 = some s3 ∧
      waitForRead cdc s3 id false = .ok (.decoded P) ∧
      Get cdc s3 pr false id = .val (.decoded P) ∧
      Get cdc s3 pr true id = .val (.raw bs) := by
  refine ⟨{ s0 with queue := [(id, pr)], workReady := s0.workReady ++ ["W"] },
          { s0 with queue := [], inProgress := sadd s0.inProgress id,
                    workReady := s0.workReady ++ ["W"] },
          { s0 with queue := [], inProgress := srem (sadd s0.inProgress id) id,
                    results := setKey s0.results id bs,
                    workReady := s0.workReady ++ ["W"],
                    published := s0.published ++ [id] },
          ?_, ?_, ?_, ?_, ?_, ?_⟩
  · have hqs : lookupKey s0.queue id = none := by rw [hq]; rfl
    have h2 := enqueue_mutates id pr s0 hip hres herr (Or.inl hqs)
    have h1 := enqueue_fst id pr s0
    rw [hres, herr] at h1
    rw [Prod.ext_iff]
    refine ⟨h1, ?_⟩
    rw [h2, hq]
    rfl
  · simp [dequeue, zrangeMin, removeKey]
  · simp [writeWorkerResult, hw, henc]
  · simp [waitForRead, getResultErr, herr, hdec, lookup_setKey_self, Except.map]
  · simp [Get, getResultErr, herr, hdec, lookup_setKey_self, Except.map]
  · simp [Get, getResultErr, herr, lookup_setKey_self]

/-- Witness for C6: a concrete cold call for id `"x"` with payload `"P"`
through the identity codec. -/
theorem get_round_trip_witness :
    ∃ s1 s2 s3 : RedisState,
      enqueue "x" 1 emptyStore = (false, s1) ∧
      dequeue s1 = (some (⟨"x", 1⟩, 0), s2) ∧
      writeWorkerResult (fun _ _ => WorkerOutcome.ok "P") idCodec 1 "x" s2 =
        some s3 ∧
      waitForRead idCodec s3 "x" false = .ok (.decoded "P") ∧
      Get idCodec s3 1 false "x" = .val (.decoded "P") ∧
      Get idCodec s3 1 true "x" = .val (.raw "P") :=
  get_round_trip idCodec (fun _ _ => WorkerOutcome.ok "P") 1 "x" "P" "P"
    emptyStore rfl rfl rfl rfl rfl rfl (by decide)

/-! The completion notifier. -/

theorem removeKey_eq_filter {α : Type} (l : List (Id × α)) (id : Id) :
    removeKey l id = l.filter (fun e => !(e.1 == id)) := by
  induction l with
  | nil => rfl
  | cons e t ih =>
    by_cases h : e.1 = id
    · simp [removeKey, h, ih]
    · simp [removeKey, h, ih, List.filter_cons]

theorem lookup_append_of_none {α : Type} (l1 l2 : List (Id × α)) (id : Id)
    (h : lookupKey l1 id = none) :
    lookupKey (l1 ++ l2) id = lookupKey l2 id := by
  induction l1 with
  | nil => rfl
  | cons e t ih =>
    by_cases he : e.1 = id
    · rw [lookupKey, if_pos he] at h
      cases h
    · rw [lookupKey, if_neg he] at h
      rw [List.cons_append, lookupKey, if_neg he]
      exact ih h

theorem countWaiters_addWaiter (watch : WatchMap) (id : Id) :
    countWaiters (addWaiter watch id) id = countWaiters watch id + 1 := by
  unfold addWaiter
  cases h : lookupKey watch id with
  | none =>
    unfold countWaiters
    rw [lookup_append_of_none watch [(id, 1)] id h, h]
    simp [lookupKey]
  | some n =>
    unfold countWaiters
    rw [lookup_setKey_self, h]
    rfl

theorem notifyAll_go (s : RedisState) (l : WatchMap) :
    ∀ (w : WatchMap) (outs : List (Id × Nat)),
      (∀ e ∈ l, lookupKey w e.1 = some e.2) →
      ((l.map Prod.fst).Nodup) →
      l.foldl
        (fun acc e =>
          if isFinished s e.1 then
            ((notifyChannels acc.1 e.1).1,
             acc.2 ++ [(e.1, (notifyChannels acc.1 e.1).2)])
          else acc) (w, outs) =
      (l.foldl (fun acc e => if isFinished s e.1 then removeKey acc e.1 else acc) w,
       outs ++ l.filter (fun e => isFinished s e.1)) := by
  induction l with
  | nil =>
    intro w outs _ _
    simp
  | cons e t ih =>
    intro w outs hl hnd
    have hnd' : (t.map Prod.fst).Nodup := by
      simp only [List.map_cons, List.nodup_cons] at hnd
      exact hnd.2
    simp only [List.foldl_cons]
    by_cases hf : isFinished s e.1
    · have hcnt : countWaiters w e.1 = e.2 := by
        unfold countWaiters
        rw [hl e (List.mem_cons_self e t)]
        rfl
      have hl' : ∀ x ∈ t, lookupKey (removeKey w e.1) x.1 = some x.2 := by
        intro x hx
        have hne : x.1 ≠ e.1 := by
          simp only [List.map_cons, List.nodup_cons] at hnd
          intro hxe
          apply hnd.1
          rw [← hxe]
          exact List.mem_map_of_mem Prod.fst hx
        rw [lookup_removeKey_ne w e.1 x.1 hne]
        exact hl x (List.mem_cons_of_mem e hx)
      have hih := ih (removeKey w e.1) (outs ++ [(e.1, e.2)]) hl' hnd'
      simp only [notifyChannels] at hih
      simp only [if_pos hf, notifyChannels, hcnt]
      rw [hih]
      simp [List.filter_cons, hf]
    · simp only [if_neg hf]
      have hl' : ∀ x ∈ t, lookupKey w x.1 = some x.2 := by
        intro x hx
        exact hl x (List.mem_cons_of_mem e hx)
      rw [ih w outs hl' hnd']
      simp [List.filter_cons, hf]

theorem removeFold (s : RedisState) (l : WatchMap) :
    ∀ w : WatchMap,
      l.foldl (fun acc e => if isFinished s e.1 then removeKey acc e.1 else acc) w =
        w.filter (fun x => !(isFinished s x.1 && (l.map Prod.fst).contains x.1)) := by
  induction l with
  | nil =>
    intro w
    simp
  | cons e t ih =>
    intro w
    simp only [List.foldl_cons]
    by_cases hf : isFinished s e.1
    · rw [if_pos hf, ih (removeKey w e.1), removeKey_eq_filter, List.filter_filter]
      apply List.filter_congr
      intro x _
      by_cases hxe : x.1 = e.1
      · simp [hxe, hf]
      · have hbe : (x.1 == e.1) = false := beq_eq_false_iff_ne.mpr hxe
        simp [List.contains_cons, hbe]
    · rw [if_neg hf, ih w]
      apply List.filter_congr
      intro x _
      by_cases hxe : x.1 = e.1
      · have hff : isFinished s e.1 = false := by simpa using hf
        simp [hxe, hff]
      · have hbe : (x.1 == e.1) = false := beq_eq_false_iff_ne.mpr hxe
        simp [List.contains_cons, hbe]

theorem notifyAll_spec (s : RedisState) (watch : WatchMap)
    (hnd : (watch.map Prod.fst).Nodup) :
    notifyAll s watch =
      (watch.filter (fun e => !(isFinished s e.1)),
       watch.filter (fun e => isFinished s e.1)) := by
  unfold notifyAll
  have hl : ∀ e ∈ watch, lookupKey watch e.1 = some e.2 := fun e he =>
    lookup_eq_of_mem_nodup watch e hnd he
  rw [notifyAll_go s watch watch [] hl hnd, removeFold s watch watch]
  rw [List.nil_append]
  congr 1
  apply List.filter_congr
  intro x hx
  have hmem : x.1 ∈ watch.map Prod.fst := List.mem_map_of_mem Prod.fst hx
  simp [hmem]

/-- C9: on receiving the reconnect sentinel (the empty-string pub/sub
message) the notifier re-checks every watched id against the store,
waking exactly the waiters of ids with a result or error record present
and keeping the rest; and a fresh subscription for an id the store
already shows finished is woken immediately (all its channels, including
the new one). -/
theorem scheduler_reconnect_reconciliation (s : RedisState) (watch : WatchMap)
    (id : Id) (hnd : (watch.map Prod.fst).Nodup)
    (hfin : isFinished s id = true) :
    schedulerStep s watch (.finished "") =
      (watch.filter (fun e => !(isFinished s e.1)),
       watch.filter (fun e => isFinished s e.1)) ∧
    schedulerStep s watch (.sub id) =
      (removeKey (addWaiter watch id) id,
       [(id, countWaiters watch id + 1)]) := by
  constructor
  · simp only [schedulerStep, if_pos rfl]
    exact notifyAll_spec s watch hnd
  · simp only [schedulerStep, if_pos hfin, notifyChannels, countWaiters_addWaiter]

/-- Witness for C9: store with a result for `"a"`, watchers on `"a"` and
`"b"`: the sentinel wakes `"a"`'s two waiters and keeps `"b"`'s; a fresh
subscription on `"a"` is woken immediately. -/
theorem scheduler_reconnect_witness :
    schedulerStep ⟨[], [], [("a", "v")], [], [], []⟩ [("a", 2), ("b", 1)]
        (.finished "") = ([("b", 1)], [("a", 2)]) ∧
    schedulerStep ⟨[], [], [("a", "v")], [], [], []⟩ [("a", 2), ("b", 1)]
        (.sub "a") = ([("b", 1)], [("a", 3)]) := by
  have h := scheduler_reconnect_reconciliation ⟨[], [], [("a", "v")], [], [], []⟩
    [("a", 2), ("b", 1)] "a" (by decide) (by decide)
  exact ⟨h.1.trans (by decide), h.2.trans (by decide)⟩

/-! Persistence of success records at transaction granularity. -/

theorem writeWorkerResult_some_inv {α : Type}
    (worker : Int → Id → WorkerOutcome α) (cdc : Codec α)
    (pr : Int) (id : Id) (s s1 : RedisState)
    (h : writeWorkerResult worker cdc pr id s = some s1) :
    s1.queue = s.queue ∧
    s1.inProgress = srem s.inProgress id ∧
    (s1.results = s.results ∨ ∃ b, s1.results = setKey s.results id b) := by
  unfold writeWorkerResult at h
  cases hw : worker pr id with
  | panicked m =>
    simp only [hw] at h
    exact Option.noConfusion h
  | fail m =>
    simp only [hw, Option.some_inj] at h
    rw [← h]
    exact ⟨rfl, rfl, Or.inl rfl⟩
  | ok v =>
    simp only [hw] at h
    cases he : cdc.encode v with
    | error m =>
      simp only [he, Option.some_inj] at h
      rw [← h]
      exact ⟨rfl, rfl, Or.inl rfl⟩
    | ok b =>
      simp only [he, Option.some_inj] at h
      rw [← h]
      exact ⟨rfl, rfl, Or.inr ⟨b, rfl⟩⟩

theorem dequeuePop_results (s : RedisState) :
    ((dequeuePop s).2).results = s.results := by
  cases hz : zrangeMin s.queue <;> simp [dequeuePop, hz]

/-- `dequeue` is exactly `dequeuePop` followed by `dequeueMark` of the
popped id: the split transaction-granular definitions compose to the
original function. -/
theorem dequeue_eq_pop_then_mark (s : RedisState) :
    (dequeue s).1 = (dequeuePop s).1 ∧
    (dequeue s).2 =
      (match (dequeuePop s).1 with
       | some (t, _) => dequeueMark (dequeuePop s).2 t.id
       | none => (dequeuePop s).2) := by
  cases hz : zrangeMin s.queue <;>
    simp [dequeue, dequeuePop, dequeueMark, hz]

/-- `enqueue` is exactly the check condition `enqueueWillSave` gating the
add transaction `enqueueAddTx` — when both of its transactions run against
the same store state. -/
theorem enqueue_eq_check_then_add (id : Id) (p : Int) (s : RedisState) :
    enqueue id p s =
      ((lookupKey s.results id).isSome || (lookupKey s.errors id).isSome,
       if enqueueWillSave id p s then enqueueAddTx id p s else s) := by
  by_cases hip : id ∈ s.inProgress
  · simp [enqueue, enqueueWillSave, hip]
  · by_cases hres : (lookupKey s.results id).isSome = true
    · simp [enqueue, enqueueWillSave, hip, hres]
    · by_cases herr : (lookupKey s.errors id).isSome = true
      · simp [enqueue, enqueueWillSave, hip, herr,
              Option.not_isSome_iff_eq_none.mp hres]
      · cases hq : lookupKey s.queue id with
        | none =>
          simp [enqueue, enqueueWillSave, enqueueAddTx, hip, hq,
                Option.not_isSome_iff_eq_none.mp hres,
                Option.not_isSome_iff_eq_none.mp herr]
        | some old =>
          by_cases hlt : p < old <;>
            simp [enqueue, enqueueWillSave, enqueueAddTx, hip, hq, hlt,
                  Option.not_isSome_iff_eq_none.mp hres,
                  Option.not_isSome_iff_eq_none.mp herr]

/-- C7 (amended): a success record survives every step of the system other
than a worker write-back for the same id — enqueue's checking and add
transactions, dequeue's pop transaction and its out-of-transaction `SADD`,
error-record expiry, and write-backs for other ids never overwrite or
remove it; and an enqueue for the resolved id itself reports
`alreadyResolved = true` and mutates nothing. A same-id write-back cannot
be excluded: it is reachable through the window between dequeue's pop
transaction and its `SADD`, where a concurrent enqueue re-queues the id
(see the counterexample). -/
theorem success_record_persists_amended {α : Type}
    (worker : Int → Id → WorkerOutcome α) (cdc : Codec α)
    (c c1 : ConfigTx) (i : Id) (b : Bytes) (p : Int)
    (hres : lookupKey c.store.results i = some b)
    (hstep : StepTx worker cdc c c1) :
    (lookupKey c1.store.results i = some b ∨
      ∃ t, t ∈ c.inFlight ∧ t.id = i ∧
        writeWorkerResult worker cdc t.priority t.id c.store = some c1.store) ∧
    (enqueue i p c.store).1 = true ∧ (enqueue i p c.store).2 = c.store := by
  refine ⟨?_, ?_, ?_⟩
  · cases hstep with
    | enqueueCheck id' p' => exact Or.inl hres
    | enqueueAdd e h => exact Or.inl hres
    | dequeuePopEmpty h =>
      left
      show lookupKey ((dequeuePop c.store).2).results i = some b
      rw [dequeuePop_results]
      exact hres
    | dequeuePopTx t n h =>
      left
      show lookupKey ((dequeuePop c.store).2).results i = some b
      rw [dequeuePop_results]
      exact hres
    | dequeueMarkTx t h => exact Or.inl hres
    | complete t s1 hmem hw =>
      by_cases hti : t.id = i
      · exact Or.inr ⟨t, hmem, hti, hw⟩
      · left
        obtain ⟨-, -, hre⟩ :=
          writeWorkerResult_some_inv worker cdc t.priority t.id c.store s1 hw
        rcases hre with hre | ⟨bb, hre⟩
        · show lookupKey s1.results i = some b
          rw [hre]
          exact hres
        · show lookupKey s1.results i = some b
          rw [hre, lookup_setKey_ne _ _ _ _ (fun he => hti he.symm)]
          exact hres
    | expireError id' => exact Or.inl hres
  · simp [enqueue_fst, hres]
  · exact enqueue_no_mutation_of i p c.store (Or.inr (Or.inl (by rw [hres]; rfl)))

/-- A configuration holding a success record, used to witness the amended
C7 theorem. -/
def persistWitnessCfg : ConfigTx := ⟨⟨[], [], [("x", "v")], [], [], []⟩, [], [], []⟩

/-- Witness for C7 (amended) at a concrete configuration and an
error-expiry step. -/
theorem success_record_persists_amended_witness :
    (lookupKey (⟨{ persistWitnessCfg.store with
            errors := removeKey persistWitnessCfg.store.errors "y" },
          persistWitnessCfg.enqueuers, persistWitnessCfg.dequeuers,
          persistWitnessCfg.inFlight⟩ : ConfigTx).store.results "x" =
        some "v" ∨
      ∃ t, t ∈ persistWitnessCfg.inFlight ∧ t.id = "x" ∧
        writeWorkerResult (fun _ _ => WorkerOutcome.ok "v") idCodec
            t.priority t.id persistWitnessCfg.store =
          some (⟨{ persistWitnessCfg.store with
              errors := removeKey persistWitnessCfg.store.errors "y" },
            persistWitnessCfg.enqueuers, persistWitnessCfg.dequeuers,
            persistWitnessCfg.inFlight⟩ : ConfigTx).store) ∧
    (enqueue "x" 5 persistWitnessCfg.store).1 = true ∧
    (enqueue "x" 5 persistWitnessCfg.store).2 = persistWitnessCfg.store :=
  success_record_persists_amended (fun _ _ => WorkerOutcome.ok "v") idCodec
    persistWitnessCfg
    ⟨{ persistWitnessCfg.store with
        errors := removeKey persistWitnessCfg.store.errors "y" },
      persistWitnessCfg.enqueuers, persistWitnessCfg.dequeuers,
      persistWitnessCfg.inFlight⟩
    "x" "v" 5 rfl (StepTx.expireError persistWitnessCfg "y")

/-- A worker whose result depends on the priority it is invoked with,
telling the first run (priority 1, result `"v1"`) from the re-run
(priority 2, result `"v2"`). -/
def raceWorker : Int → Id → WorkerOutcome String :=
  fun p _ => if p = 1 then .ok "v1" else .ok "v2"

/-- C7 counterexample: at the source's transaction granularity the claim
fails. Trace: enqueue `"x"` (check, then add); the dequeue loop pops the
entry; before its out-of-transaction `SADD` runs, a second caller's
enqueue check sees `"x"` neither queued, nor in progress, nor resolved,
and re-queues it; both pops are marked, yielding two in-flight tasks for
`"x"`. The first write-back stores the success record `"v1"`; the second
— a worker re-run for an already-resolved id — overwrites it with
`"v2"`. -/
theorem success_record_overwritten_cex :
    ReachableTx raceWorker idCodec
      ⟨⟨[], [], [("x", "v1")], [], ["W", "W"], ["x"]⟩, [], [], [⟨"x", 2⟩]⟩ ∧
    lookupKey
        (⟨[], [], [("x", "v1")], [], ["W", "W"], ["x"]⟩ : RedisState).results
        "x" = some "v1" ∧
    StepTx raceWorker idCodec
      ⟨⟨[], [], [("x", "v1")], [], ["W", "W"], ["x"]⟩, [], [], [⟨"x", 2⟩]⟩
      ⟨⟨[], [], [("x", "v2")], [], ["W", "W"], ["x", "x"]⟩, [], [], []⟩ ∧
    lookupKey
        (⟨[], [], [("x", "v2")], [], ["W", "W"], ["x", "x"]⟩ : RedisState).results
        "x" = some "v2" ∧
    ("v2" : Bytes) ≠ "v1" := by
  refine ⟨?_, by decide, ?_, by decide, by decide⟩
  · have h1 : Relation.ReflTransGen (StepTx raceWorker idCodec) initConfigTx
        ⟨emptyStore, [("x", 1)], [], []⟩ :=
      Relation.ReflTransGen.single (StepTx.enqueueCheck initConfigTx "x" 1)
    have h2 : Relation.ReflTransGen (StepTx raceWorker idCodec) initConfigTx
        ⟨⟨[("x", 1)], [], [], [], ["W"], []⟩, [], [], []⟩ :=
      h1.tail (StepTx.enqueueAdd ⟨emptyStore, [("x", 1)], [], []⟩ ("x", 1)
        (by decide))
    have h3 : Relation.ReflTransGen (StepTx raceWorker idCodec) initConfigTx
        ⟨⟨[], [], [], [], ["W"], []⟩, [], [⟨"x", 1⟩], []⟩ :=
      h2.tail (StepTx.dequeuePopTx ⟨⟨[("x", 1)], [], [], [], ["W"], []⟩, [], [], []⟩
        ⟨"x", 1⟩ 0 (by decide))
    have h4 : Relation.ReflTransGen (StepTx raceWorker idCodec) initConfigTx
        ⟨⟨[], [], [], [], ["W"], []⟩, [("x", 2)], [⟨"x", 1⟩], []⟩ :=
      h3.tail (StepTx.enqueueCheck ⟨⟨[], [], [], [], ["W"], []⟩, [], [⟨"x", 1⟩], []⟩
        "x" 2)
    have h5 : Relation.ReflTransGen (StepTx raceWorker idCodec) initConfigTx
        ⟨⟨[("x", 2)], [], [], [], ["W", "W"], []⟩, [], [⟨"x", 1⟩], []⟩ :=
      h4.tail (StepTx.enqueueAdd
        ⟨⟨[], [], [], [], ["W"], []⟩, [("x", 2)], [⟨"x", 1⟩], []⟩ ("x", 2)
        (by decide))
    have h6 : Relation.ReflTransGen (StepTx raceWorker idCodec) initConfigTx
        ⟨⟨[("x", 2)], ["x"], [], [], ["W", "W"], []⟩, [], [], [⟨"x", 1⟩]⟩ :=
      h5.tail (StepTx.dequeueMarkTx
        ⟨⟨[("x", 2)], [], [], [], ["W", "W"], []⟩, [], [⟨"x", 1⟩], []⟩
        ⟨"x", 1⟩ (by decide))
    have h7 : Relation.ReflTransGen (StepTx raceWorker idCodec) initConfigTx
        ⟨⟨[], ["x"], [], [], ["W", "W"], []⟩, [], [⟨"x", 2⟩], [⟨"x", 1⟩]⟩ :=
      h6.tail (StepTx.dequeuePopTx
        ⟨⟨[("x", 2)], ["x"], [], [], ["W", "W"], []⟩, [], [], [⟨"x", 1⟩]⟩
        ⟨"x", 2⟩ 0 (by decide))
    have h8 : Relation.ReflTransGen (StepTx raceWorker idCodec) initConfigTx
        ⟨⟨[], ["x"], [], [], ["W", "W"], []⟩, [], [], [⟨"x", 1⟩, ⟨"x", 2⟩]⟩ :=
      h7.tail (StepTx.dequeueMarkTx
        ⟨⟨[], ["x"], [], [], ["W", "W"], []⟩, [], [⟨"x", 2⟩], [⟨"x", 1⟩]⟩
        ⟨"x", 2⟩ (by decide))
    exact h8.tail (StepTx.complete
      ⟨⟨[], ["x"], [], [], ["W", "W"], []⟩, [], [], [⟨"x", 1⟩, ⟨"x", 2⟩]⟩
      ⟨"x", 1⟩ ⟨[], [], [("x", "v1")], [], ["W", "W"], ["x"]⟩
      (by decide) (by decide))
  · exact StepTx.complete
      ⟨⟨[], [], [("x", "v1")], [], ["W", "W"], ["x"]⟩, [], [], [⟨"x", 2⟩]⟩
      ⟨"x", 2⟩ ⟨[], [], [("x", "v2")], [], ["W", "W"], ["x", "x"]⟩
      (by decide) (by decide)

end RedisRTC

